import Mathlib

/-!
Verification of the EiBotBoard serial-protocol client (ebb.js).

The development shallowly embeds the protocol core of the library:
the per-operation command encoders with their parameter validation,
the per-operation response decoders, and the command queue / response
router implemented by EiBotBoard.command together with the line handler
installed in the constructor.

JavaScript numbers that the library actually passes around are integers,
so numeric parameters are modeled as Int (Math.floor is then the
identity); a JavaScript exception is modeled as Except.error carrying the
message string; NaN produced by parseInt is modeled as Option.none.
-/

namespace Ebb

/-! ## JavaScript string and number primitives -/

/-- Model of JavaScript string.startsWith on character lists:
listStartsWith p cs is true when p is an initial segment of cs. -/
def listStartsWith : List Char → List Char → Bool
  | [], _ => true
  | _ :: _, [] => false
  | p :: ps, c :: cs => p == c && listStartsWith ps cs

/-- Worker for jsSplit. The fuel argument (instantiated with the length of
the string plus one) makes the recursion structural; with a non-empty
separator the fuel is never exhausted. -/
def jsSplitGo (sep : List Char) : Nat → List Char → List Char → List (List Char)
  | _, acc, [] => [acc.reverse]
  | 0, acc, cs => [acc.reverse ++ cs]
  | fuel + 1, acc, c :: rest =>
    if listStartsWith sep (c :: rest) then
      acc.reverse :: jsSplitGo sep fuel [] ((c :: rest).drop sep.length)
    else
      jsSplitGo sep fuel (c :: acc) rest

/-- Model of JavaScript s.split(sep) for a non-empty separator string. -/
def jsSplit (s sep : String) : List String :=
  (jsSplitGo sep.toList (s.toList.length + 1) [] s.toList).map (fun cs => String.mk cs)

/-- Model of JavaScript s.startsWith(p). -/
def jsStartsWith (s p : String) : Bool :=
  listStartsWith p.toList s.toList

/-- Model of JavaScript s.indexOf(p) !== -1. -/
def jsContains (s p : String) : Bool :=
  2 ≤ (jsSplit s p).length

/-- Whitespace characters skipped by parseInt. -/
def jsWhitespace (c : Char) : Bool :=
  c == ' ' || c == '\t' || c == '\n' || c == '\r'

/-- Value of a single digit character under the given radix, as used by
parseInt: decimal digits, then letters (case-insensitive). -/
def digitVal (radix : Nat) (c : Char) : Option Nat :=
  let v :=
    if '0' ≤ c ∧ c ≤ '9' then some (c.toNat - '0'.toNat)
    else if 'a' ≤ c ∧ c ≤ 'z' then some (c.toNat - 'a'.toNat + 10)
    else if 'A' ≤ c ∧ c ≤ 'Z' then some (c.toNat - 'A'.toNat + 10)
    else none
  match v with
  | some d => if d < radix then some d else none
  | none => none

/-- Accumulate the maximal prefix of valid digits; none when no digit has
been consumed (parseInt then yields NaN). -/
def parseDigitsGo (radix : Nat) : List Char → Option Nat → Option Nat
  | [], acc => acc
  | c :: cs, acc =>
    match digitVal radix c with
    | some d => parseDigitsGo radix cs (some (acc.getD 0 * radix + d))
    | none => acc

/-- Model of JavaScript parseInt(s, radix): skip leading whitespace, accept
an optional sign, for radix 16 strip an optional 0x prefix, then parse the
maximal prefix of valid digits. none models NaN. -/
def jsParseInt (radix : Nat) (s : String) : Option Int :=
  let cs := s.toList.dropWhile jsWhitespace
  let signed : Bool × List Char :=
    match cs with
    | '-' :: rest => (true, rest)
    | '+' :: rest => (false, rest)
    | _ => (false, cs)
  let body :=
    if radix = 16 then
      match signed.2 with
      | '0' :: 'x' :: rest => rest
      | '0' :: 'X' :: rest => rest
      | _ => signed.2
    else signed.2
  (parseDigitsGo radix body none).map (fun n => if signed.1 then -(n : Int) else (n : Int))

/-- Model of the JavaScript bit test (byte & (1 << bit)) > 0 used by
queryGeneral, for bit positions 0-7. The bitwise-and coerces its operands
with ToInt32, which sends NaN to 0 and wraps integers modulo 2^32. -/
def jsBitSet (byte : Option Int) (bit : Nat) : Bool :=
  Nat.testBit (match byte with
    | none => 0
    | some n => (n % (2 ^ 32 : Int)).toNat) bit

/-! ## Constants from ebb.js -/

def PEN_DOWN : Int := 0
def PEN_UP : Int := 1

def MOTOR_DISABLE : Int := 0
def MOTOR_STEP_DIV16 : Int := 1
def MOTOR_STEP_DIV8 : Int := 2
def MOTOR_STEP_DIV4 : Int := 3
def MOTOR_STEP_DIV2 : Int := 4
def MOTOR_STEP_DIV1 : Int := 5

/-! ## Command encoders

Each operation of EiBotBoard first validates its parameters (a thrown
exception is Except.error with the message from the source) and only then
calls this.command with the assembled command text. An encoder therefore
returns Except String Cmd: the command text passed to this.command
together with the declared number of response lines. this.command appends
the carriage return when printing, which opWrites reproduces. -/

/-- A call to this.command: the command text and the expected number of
response lines. -/
structure Cmd where
  text : String
  numLines : Nat
deriving DecidableEq, Repr

/-- The byte sequences an operation writes to the transport: nothing when
validation fails, otherwise the single command string terminated by the
carriage return appended inside EiBotBoard.command. -/
def opWrites : Except String Cmd → List String
  | Except.error _ => []
  | Except.ok c => [c.text ++ "\r"]

/-- assertByte from ebb.js. The integrality check cannot fail on Int. -/
def assertByte (value : Int) : Except String Unit :=
  if value < 0 ∨ value > 255 then
    Except.error "Byte value must be between 0 and 255."
  else
    Except.ok ()

/-- assertValidPortLetter from ebb.js. -/
def assertValidPortLetter (portLetter : String) : Except String Unit :=
  if portLetter ∈ ["A", "B", "C", "D", "E"] then
    Except.ok ()
  else
    Except.error "Port letter must be A, B, C, D, or E."

/-- EiBotBoard.memoryWrite up to its call of this.command. -/
def memoryWriteEncode (address value : Int) : Except String Cmd :=
  if address < 0 ∨ address > 4095 then
    Except.error "Address must be between 0 and 4095."
  else
    (assertByte value).bind fun _ =>
      Except.ok ⟨"MW," ++ toString address ++ "," ++ toString value, 1⟩

/-- EiBotBoard.setPinDirection up to its call of this.command. The wire
field is isOutput ? 0 : 1, the TRIS bit. -/
def setPinDirectionEncode (portLetter : String) (pinIndex : Int) (isOutput : Bool) :
    Except String Cmd :=
  (assertValidPortLetter portLetter).bind fun _ =>
    if pinIndex < 0 ∨ pinIndex > 7 then
      Except.error "Pin index must be between 0 and 7."
    else
      Except.ok ⟨"PD," ++ portLetter ++ "," ++ toString pinIndex ++ ","
        ++ toString (if isOutput then (0 : Int) else 1), 1⟩

/-- EiBotBoard.pulseConfigure up to its call of this.command: the source
performs no parameter validation. -/
def pulseConfigureEncode (d0 p0 d1 p1 d2 p2 d3 p3 : Int) : Except String Cmd :=
  Except.ok ⟨"PC," ++ toString d0 ++ "," ++ toString p0 ++ "," ++ toString d1 ++ ","
    ++ toString p1 ++ "," ++ toString d2 ++ "," ++ toString p2 ++ ","
    ++ toString d3 ++ "," ++ toString p3, 1⟩

/-- EiBotBoard.enableMotors up to its call of this.command: no validation. -/
def enableMotorsEncode (m1Mode m2Mode : Int) : Except String Cmd :=
  Except.ok ⟨"EM," ++ toString m1Mode ++ "," ++ toString m2Mode, 1⟩

/-- EiBotBoard.stepperMoveMixedAxis up to its call of this.command.
Math.floor is the identity on the Int model of the parameters. -/
def stepperMoveMixedAxisEncode (durationMs stepsA stepsB : Int) : Except String Cmd :=
  if durationMs < 1 ∨ durationMs ≥ 2 ^ 24 then
    Except.error "Duration must be between 1 and 2^24 milliseconds"
  else if stepsA ≤ -(2 ^ 24) ∨ stepsA ≥ 2 ^ 24 then
    Except.error "Steps A must be between 0 and 2^24"
  else if stepsB < -(2 ^ 24) ∨ stepsB ≥ 2 ^ 24 then
    Except.error "Steps B must be between 0 and 2^24"
  else
    Except.ok ⟨"XM," ++ toString durationMs ++ "," ++ toString stepsA ++ ","
      ++ toString stepsB, 1⟩

/-- EiBotBoard.setPenState up to its call of this.command; the optional
duration and portBPin parameters are undefined when absent. -/
def setPenStateEncode (penDown : Bool) (duration portBPin : Option Int) :
    Except String Cmd :=
  match duration, portBPin with
  | some d, _ =>
    if d < 1 ∨ d ≥ 2 ^ 16 then
      Except.error "Duration must be between 1 and 2^16"
    else
      match portBPin with
      | some p =>
        if p < 0 ∨ p > 7 then
          Except.error "Port B pin must be between 0 and 7"
        else
          Except.ok ⟨"SP," ++ toString (if penDown then PEN_DOWN else PEN_UP) ++ ","
            ++ toString d ++ "," ++ toString p, 1⟩
      | none =>
        Except.ok ⟨"SP," ++ toString (if penDown then PEN_DOWN else PEN_UP) ++ ","
          ++ toString d, 1⟩
  | none, some p =>
    if p < 0 ∨ p > 7 then
      Except.error "Port B pin must be between 0 and 7"
    else
      Except.ok ⟨"SP," ++ toString (if penDown then PEN_DOWN else PEN_UP), 1⟩
  | none, none =>
    Except.ok ⟨"SP," ++ toString (if penDown then PEN_DOWN else PEN_UP), 1⟩

/-- EiBotBoard.togglePen up to its call of this.command. The guard
if (duration) tests JavaScript truthiness, so a duration of exactly 0
takes the bare-command branch. -/
def togglePenEncode (duration : Option Int) : Except String Cmd :=
  match duration with
  | some d =>
    if d ≠ 0 then
      if d < 1 ∨ d ≥ 2 ^ 16 then
        Except.error "Duration must be between 0 and 2^16"
      else
        Except.ok ⟨"TP," ++ toString d, 1⟩
    else
      Except.ok ⟨"TP", 1⟩
  | none => Except.ok ⟨"TP", 1⟩

/-! ## Response decoders -/

/-- The acknowledgment check shared by enableMotors, memoryWrite,
setPinDirection and the other bare-OK operations:
if (response !== OK) throw new Error(Received unexpected response: ...). -/
def okAcknowledgeCheck (response : String) : Except String Unit :=
  if response = "OK" then
    Except.ok ()
  else
    Except.error ("Received unexpected response: " ++ response)

/-- The response check of togglePen: the truthy-duration branch returns
without looking at the response, the bare branch requires OK. -/
def togglePenCheck (duration : Option Int) (response : String) : Except String Unit :=
  match duration with
  | some d =>
    if d ≠ 0 then Except.ok ()
    else if response = "OK" then Except.ok ()
    else Except.error ("Unexpected response: " ++ response)
  | none =>
    if response = "OK" then Except.ok ()
    else Except.error ("Unexpected response: " ++ response)

/-- Result object of queryGeneral. -/
structure GeneralStatus where
  pinRB5 : Bool
  pinRB2 : Bool
  buttonPrg : Bool
  penDown : Bool
  commandExecuting : Bool
  motor1Moving : Bool
  motor2Moving : Bool
  fifoEmpty : Bool
deriving DecidableEq, Repr

/-- EiBotBoard.queryGeneral after receiving its single response line:
parseInt(response, 16), then one bit test per flag, fifoEmpty negated.
The source contains no validation and no throw, so the decoder is total
and always returns Except.ok. -/
def queryGeneralDecode (response : String) : Except String GeneralStatus :=
  let statusByte := jsParseInt 16 response
  Except.ok
    { pinRB5 := jsBitSet statusByte 7
      pinRB2 := jsBitSet statusByte 6
      buttonPrg := jsBitSet statusByte 5
      penDown := jsBitSet statusByte 4
      commandExecuting := jsBitSet statusByte 3
      motor1Moving := jsBitSet statusByte 2
      motor2Moving := jsBitSet statusByte 1
      fifoEmpty := !jsBitSet statusByte 0 }

/-- One token of the analog-channel list: split on the colon and parse the
channel and value parts as decimal integers. A token without a colon
leaves the value undefined, which parseInt turns into NaN (none). -/
def analogToken (tok : String) : Option Int × Option Int :=
  match jsSplit tok ":" with
  | c :: v :: _ => (jsParseInt 10 c, jsParseInt 10 v)
  | [c] => (jsParseInt 10 c, none)
  | [] => (none, none)

/-- EiBotBoard.analogValueGet after receiving its single response line:
response.split(",").slice(1) reduced into an object keyed by channel.
The accumulated object is modeled as the association list of parsed
(channel, value) pairs in token order. The source contains no validation
and no throw, so the decoder is total and always returns Except.ok. -/
def analogValueGetDecode (response : String) :
    Except String (List (Option Int × Option Int)) :=
  Except.ok (((jsSplit response ",").drop 1).map analogToken)

/-- Result object of queryMotors. -/
structure MotorStatus where
  executingMotion : Bool
  motorMoving : List Bool
  fifoEmpty : Bool
deriving DecidableEq, Repr

/-- parseInt(s, 10) > 0 with NaN > 0 being false. -/
def jsParsedPos (s : Option String) : Bool :=
  match s with
  | none => false
  | some s =>
    match jsParseInt 10 s with
    | some n => decide (0 < n)
    | none => false

/-- parseInt(s, 10) === 0 with NaN === 0 being false. -/
def jsParsedZero (s : Option String) : Bool :=
  match s with
  | none => false
  | some s =>
    match jsParseInt 10 s with
    | some n => decide (n = 0)
    | none => false

/-- EiBotBoard.queryMotors after receiving its single response line. -/
def queryMotorsDecode (response : String) : Except String MotorStatus :=
  if jsStartsWith response "QM," then
    let parts := jsSplit response ","
    Except.ok
      { executingMotion := jsParsedPos parts[1]?
        motorMoving := [parts[2]? == some "1", parts[3]? == some "1"]
        fifoEmpty := jsParsedZero parts[4]? }
  else
    Except.error ("Unexpected response: " ++ response)

/-- EiBotBoard.queryPen after receiving its two response lines, which
this.command joins with a carriage-return line-feed pair. The pen is
reported down when the first line parses to PEN_DOWN. -/
def queryPenDecode (response : String) : Except String Bool :=
  if jsContains response "\r\n" then
    match jsSplit response "\r\n" with
    | penStatus :: status :: _ =>
      if status = "OK" then
        Except.ok (jsParseInt 10 penStatus == some PEN_DOWN)
      else
        Except.error ("Unexpected response: " ++ response)
    | _ => Except.error ("Unexpected response: " ++ response)
  else
    Except.error ("Unexpected response: " ++ response)

/-- The pen-state wire field chosen by setPenState:
const penState = penDown ? PEN_DOWN : PEN_UP. -/
def penStateField (penDown : Bool) : Int :=
  if penDown then PEN_DOWN else PEN_UP

/-! ## The command queue and response router

EiBotBoard.command together with the line handler registered in the
constructor form a small event system. Commands are identified by the
order in which command is called: command c is the c-th call. The
machine state mirrors the mutable state of the class plus the state
implicit in the promises of one command:

* pending: this.pending, the queue of not-yet-finished executeCommand
  closures, by command id;
* responseHandlers: this.responseHandlers, one entry per still-registered
  line handler, tagged with the id of the command it belongs to (handlers
  are pushed synchronously inside the promise executor when command is
  called);
* recvd c: the length of the lines array captured by command c;
* responded c: whether the responsePromise of c has been fulfilled
  (its last line arrived before its timeout);
* timedOut c: whether the timedOut flag of c has been set by its timer;
* completed c: whether the final then-continuation of c has run
  (the continuation that fulfills the caller, shifts this.pending, and
  starts the next entry);
* writes: the transport log, the command ids in this.port.print order;
* nextId: the number of commands enqueued so far.

Events: EbbEvent.enqueue is a call of command; EbbEvent.line is the
arrival of one line notification from the transport; EbbEvent.timeout c
is the firing of the timer of command c, possible only while the timer is
armed (c exists, not fulfilled, not already fired). Promise continuations
triggered by an event run as microtasks before the next event and are
folded into the event step. -/

/-- Pointwise update of a function on Nat, modeling assignment to the
per-command record fields. -/
def updFn {α : Type} (f : Nat → α) (k : Nat) (v : α) : Nat → α :=
  fun n => if n = k then v else f n

structure EbbState where
  nextId : Nat
  pending : List Nat
  responseHandlers : List Nat
  recvd : Nat → Nat
  responded : Nat → Bool
  timedOut : Nat → Bool
  completed : Nat → Bool
  writes : List Nat

/-- The state built by the EiBotBoard constructor. -/
def initState : EbbState :=
  ⟨0, [], [], fun _ => 0, fun _ => false, fun _ => false, fun _ => false, []⟩

inductive EbbEvent where
  | enqueue
  | line
  | timeout (c : Nat)

/-- The then-continuation of command c after both its print and its
responsePromise have resolved: fulfill the caller, shift this.pending,
and call the executeCommand of the new head if there is one. Calling
executeCommand prints the command; if the responsePromise of that command
has already been fulfilled (stale lines filled its buffer while it was
queued) its own continuation runs in turn, hence the recursion, fueled by
the pending-queue length. -/
def runCont : Nat → Nat → EbbState → EbbState
  | 0, c, s => { s with completed := updFn s.completed c true, pending := s.pending.tail }
  | fuel + 1, c, s =>
    let s1 : EbbState :=
      { s with completed := updFn s.completed c true, pending := s.pending.tail }
    match s1.pending with
    | [] => s1
    | d :: _ =>
      let s2 : EbbState := { s1 with writes := s1.writes ++ [d] }
      if s2.responded d then runCont fuel d s2 else s2

/-- A call of command: register numLines c response handlers (done
synchronously in the promise executor), append the executeCommand closure
to this.pending, and if no other command was pending, run it at once,
which prints the command text. -/
def enqueueStep (numLines : Nat → Nat) (s : EbbState) : EbbState :=
  let c := s.nextId
  let s1 : EbbState :=
    { s with
      nextId := c + 1
      responseHandlers := s.responseHandlers ++ List.replicate (numLines c) c }
  if s1.pending = [] then
    let s2 : EbbState := { s1 with pending := [c], writes := s1.writes ++ [c] }
    if s2.responded c then runCont s2.pending.length c s2 else s2
  else
    { s1 with pending := s1.pending ++ [c] }

/-- Arrival of one line notification. The constructor handler logs and
drops the line when no response handler is registered, otherwise shifts
the oldest handler and calls it: the handler returns at once when its
command already timed out, else appends the line and, when the declared
line count is reached, clears the timer and fulfills the responsePromise,
which lets the then-continuation of the command run if the command has
been written. -/
def lineStep (numLines : Nat → Nat) (s : EbbState) : EbbState :=
  match s.responseHandlers with
  | [] => s
  | c :: hs =>
    let s1 : EbbState := { s with responseHandlers := hs }
    if s1.timedOut c then s1
    else
      let r := s1.recvd c + 1
      let s2 : EbbState := { s1 with recvd := updFn s1.recvd c r }
      if r = numLines c then
        let s3 : EbbState := { s2 with responded := updFn s2.responded c true }
        if c ∈ s3.writes then runCont s3.pending.length c s3 else s3
      else s2

/-- Firing of the timer of command c: possible only while the timer is
armed, that is c has been enqueued, its responsePromise is not fulfilled
(fulfilling clears the timer), and the timer has not already fired. The
rejection of the responsePromise sets timedOut; the then-continuation of
c never runs, so this.pending is not shifted. -/
def timeoutStep (s : EbbState) (c : Nat) : EbbState :=
  if c < s.nextId ∧ s.responded c = false ∧ s.timedOut c = false then
    { s with timedOut := updFn s.timedOut c true }
  else s

def ebbStep (numLines : Nat → Nat) (s : EbbState) : EbbEvent → EbbState
  | EbbEvent.enqueue => enqueueStep numLines s
  | EbbEvent.line => lineStep numLines s
  | EbbEvent.timeout c => timeoutStep s c

/-- Run a sequence of events from the freshly constructed state.
numLines c is the number of response lines declared by the c-th command. -/
def ebbRun (numLines : Nat → Nat) (events : List EbbEvent) : EbbState :=
  events.foldl (ebbStep numLines) initState

/-- The full handler lists of commands a, a+1, ..., a+n-1 in order, as
they sit in responseHandlers before any of their lines arrived. -/
def handlersFrom (numLines : Nat → Nat) : Nat → Nat → List Nat
  | _, 0 => []
  | a, n + 1 => List.replicate (numLines a) a ++ handlersFrom numLines (a + 1) n

/-- The inductive invariant of the queue machine, witnessed by
j (the number of completed commands), k (the number of written commands),
m (the oldest command that still has registered handlers) and r (how many
of the handlers of m are still registered). -/
structure EbbShape (numLines : Nat → Nat) (s : EbbState) (j k m r : Nat) : Prop where
  j_le : j ≤ s.nextId
  completed_iff : ∀ i, s.completed i = true ↔ i < j
  writes_eq : s.writes = List.range k
  k_done : j = s.nextId → k = j
  k_busy : j ≠ s.nextId → k = j + 1
  pending_eq : s.pending = List.range' j (s.nextId - j)
  j_le_m : j ≤ m
  m_le : m ≤ s.nextId
  handlers_eq :
    s.responseHandlers = List.replicate r m ++ handlersFrom numLines (m + 1) (s.nextId - (m + 1))
  r_pos : m < s.nextId → 1 ≤ r ∧ r ≤ numLines m
  r_zero : m = s.nextId → r = 0
  recvd_m : m < s.nextId → s.timedOut m = false → s.recvd m + r = numLines m
  recvd_gt : ∀ i, m < i → s.recvd i = 0
  timedOut_fresh : ∀ i, s.nextId ≤ i → s.timedOut i = false
  responded_lt : ∀ i, s.responded i = true → i < m
  recvd_fresh : ∀ i, s.nextId ≤ i → s.recvd i = 0

def EbbInv (numLines : Nat → Nat) (s : EbbState) : Prop :=
  ∃ j k m r, EbbShape numLines s j k m r

/-! ## Properties of the queue machine -/

theorem handlersFrom_succ (nl : Nat → Nat) (a n : Nat) :
    handlersFrom nl a (n + 1) = List.replicate (nl a) a ++ handlersFrom nl (a + 1) n := rfl

theorem handlersFrom_concat (nl : Nat → Nat) (a n : Nat) :
    handlersFrom nl a (n + 1) = handlersFrom nl a n ++ List.replicate (nl (a + n)) (a + n) := by
  induction n generalizing a with
  | zero => simp [handlersFrom]
  | succ n ih =>
    rw [handlersFrom_succ nl a (n + 1), ih (a + 1), handlersFrom_succ nl a n,
      List.append_assoc]
    have hn : a + 1 + n = a + (n + 1) := by omega
    rw [hn]

theorem initState_shape (nl : Nat → Nat) : EbbShape nl initState 0 0 0 0 := by
  constructor <;> simp [initState, handlersFrom]

theorem timeoutStep_inv (nl : Nat → Nat) (s : EbbState) (c : Nat) (h : EbbInv nl s) :
    EbbInv nl (timeoutStep s c) := by
  obtain ⟨j, k, m, r, hs⟩ := h
  unfold timeoutStep
  by_cases hg : c < s.nextId ∧ s.responded c = false ∧ s.timedOut c = false
  · rw [if_pos hg]
    obtain ⟨hc, hr, ht⟩ := hg
    refine ⟨j, k, m, r, ?_⟩
    refine
      { j_le := hs.j_le
        completed_iff := hs.completed_iff
        writes_eq := hs.writes_eq
        k_done := hs.k_done
        k_busy := hs.k_busy
        pending_eq := hs.pending_eq
        j_le_m := hs.j_le_m
        m_le := hs.m_le
        handlers_eq := hs.handlers_eq
        r_pos := hs.r_pos
        r_zero := hs.r_zero
        recvd_m := ?_
        recvd_gt := hs.recvd_gt
        timedOut_fresh := ?_
        responded_lt := hs.responded_lt
        recvd_fresh := hs.recvd_fresh }
    · intro hm hmf
      refine hs.recvd_m hm ?_
      by_cases hmc : m = c
      · exfalso
        simp [updFn, hmc] at hmf
      · simpa [updFn, hmc] using hmf
    · intro i hi
      have hi' : s.nextId ≤ i := hi
      have hic : ¬(i = c) := by omega
      simp only [updFn, if_neg hic]
      exact hs.timedOut_fresh i hi'
  · rw [if_neg hg]
    exact ⟨j, k, m, r, hs⟩

theorem enqueueStep_empty (nl : Nat → Nat) (s : EbbState) (hp : s.pending = [])
    (hr : s.responded s.nextId = false) :
    enqueueStep nl s =
      { s with
        nextId := s.nextId + 1
        responseHandlers := s.responseHandlers ++ List.replicate (nl s.nextId) s.nextId
        pending := [s.nextId]
        writes := s.writes ++ [s.nextId] } := by
  unfold enqueueStep
  simp [hp, hr]

theorem enqueueStep_busy (nl : Nat → Nat) (s : EbbState) (hp : s.pending ≠ []) :
    enqueueStep nl s =
      { s with
        nextId := s.nextId + 1
        responseHandlers := s.responseHandlers ++ List.replicate (nl s.nextId) s.nextId
        pending := s.pending ++ [s.nextId] } := by
  unfold enqueueStep
  simp [hp]

theorem lineStep_nil (nl : Nat → Nat) (s : EbbState) (h : s.responseHandlers = []) :
    lineStep nl s = s := by
  unfold lineStep
  rw [h]

theorem lineStep_cons_timedOut (nl : Nat → Nat) (s : EbbState) (c : Nat) (tl : List Nat)
    (h : s.responseHandlers = c :: tl) (ht : s.timedOut c = true) :
    lineStep nl s = { s with responseHandlers := tl } := by
  unfold lineStep
  rw [h]
  simp [ht]

theorem lineStep_cons_buffered (nl : Nat → Nat) (s : EbbState) (c : Nat) (tl : List Nat)
    (h : s.responseHandlers = c :: tl) (ht : s.timedOut c = false)
    (hnr : s.recvd c + 1 ≠ nl c) :
    lineStep nl s =
      { s with responseHandlers := tl, recvd := updFn s.recvd c (s.recvd c + 1) } := by
  unfold lineStep
  rw [h]
  simp [ht, hnr]

theorem lineStep_cons_full_unwritten (nl : Nat → Nat) (s : EbbState) (c : Nat) (tl : List Nat)
    (h : s.responseHandlers = c :: tl) (ht : s.timedOut c = false)
    (hfull : s.recvd c + 1 = nl c) (hw : c ∉ s.writes) :
    lineStep nl s =
      { s with
        responseHandlers := tl
        recvd := updFn s.recvd c (s.recvd c + 1)
        responded := updFn s.responded c true } := by
  unfold lineStep
  rw [h]
  simp [ht, hfull, hw]

theorem lineStep_cons_full_written (nl : Nat → Nat) (s : EbbState) (c : Nat) (tl : List Nat)
    (h : s.responseHandlers = c :: tl) (ht : s.timedOut c = false)
    (hfull : s.recvd c + 1 = nl c) (hw : c ∈ s.writes) :
    lineStep nl s =
      runCont s.pending.length c
        { s with
          responseHandlers := tl
          recvd := updFn s.recvd c (s.recvd c + 1)
          responded := updFn s.responded c true } := by
  unfold lineStep
  rw [h]
  simp [ht, hfull, hw]

theorem runCont_last (fuel c : Nat) (s : EbbState) (h : s.pending.tail = []) :
    runCont fuel c s = { s with completed := updFn s.completed c true, pending := [] } := by
  cases fuel <;> simp [runCont, h]

theorem runCont_step (fuel' c d : Nat) (rest : List Nat) (s : EbbState)
    (h : s.pending.tail = d :: rest) (hresp : s.responded d = false) :
    runCont (fuel' + 1) c s =
      { s with
        completed := updFn s.completed c true
        pending := d :: rest
        writes := s.writes ++ [d] } := by
  simp [runCont, h, hresp]

theorem enqueueStep_inv (nl : Nat → Nat) (hnl : ∀ i, 1 ≤ nl i) (s : EbbState)
    (h : EbbInv nl s) : EbbInv nl (enqueueStep nl s) := by
  obtain ⟨j, k, m, r, hs⟩ := h
  have hj1 := hs.j_le
  have hm8 := hs.m_le
  by_cases hp : s.pending = []
  · have h0 : s.nextId - j = 0 := by
      have hpe := hs.pending_eq
      rw [hp] at hpe
      exact List.range'_eq_nil.mp hpe.symm
    have hjn : j = s.nextId := by omega
    have hmn : m = s.nextId := by
      have h7 := hs.j_le_m
      omega
    have hr0 : r = 0 := hs.r_zero hmn
    have hhandlers : s.responseHandlers = [] := by
      rw [hs.handlers_eq, hr0, hmn]
      have h1 : s.nextId - (s.nextId + 1) = 0 := by omega
      rw [h1]
      simp [handlersFrom]
    have hresp : s.responded s.nextId = false := by
      cases hq : s.responded s.nextId with
      | false => rfl
      | true =>
        have := hs.responded_lt _ hq
        omega
    have hk : k = s.nextId := by
      have := hs.k_done hjn
      omega
    rw [enqueueStep_empty nl s hp hresp]
    refine ⟨s.nextId, s.nextId + 1, s.nextId, nl s.nextId, ?_⟩
    refine
      { j_le := Nat.le_succ s.nextId
        completed_iff := by
          intro i
          rw [← hjn]
          exact hs.completed_iff i
        writes_eq := by
          show s.writes ++ [s.nextId] = List.range (s.nextId + 1)
          rw [hs.writes_eq, hk, List.range_succ]
        k_done := by
          intro h1
          have h2 : s.nextId = s.nextId + 1 := h1
          omega
        k_busy := fun _ => rfl
        pending_eq := by
          show [s.nextId] = List.range' s.nextId (s.nextId + 1 - s.nextId)
          have h1 : s.nextId + 1 - s.nextId = 1 := by omega
          rw [h1, List.range'_one]
        j_le_m := Nat.le_refl _
        m_le := Nat.le_succ s.nextId
        handlers_eq := by
          show s.responseHandlers ++ List.replicate (nl s.nextId) s.nextId = _
          rw [hhandlers]
          have h1 : s.nextId + 1 - (s.nextId + 1) = 0 := by omega
          rw [h1]
          simp [handlersFrom]
        r_pos := fun _ => ⟨hnl s.nextId, Nat.le_refl _⟩
        r_zero := by
          intro h1
          have h2 : s.nextId = s.nextId + 1 := h1
          omega
        recvd_m := by
          intro _ _
          show s.recvd s.nextId + nl s.nextId = nl s.nextId
          rw [hs.recvd_fresh s.nextId (Nat.le_refl _)]
          omega
        recvd_gt := fun i hi => hs.recvd_fresh i (by
          have h2 : s.nextId < i := hi
          omega)
        timedOut_fresh := fun i hi => hs.timedOut_fresh i (by
          have h2 : s.nextId + 1 ≤ i := hi
          omega)
        responded_lt := fun i hi => by
          have h2 := hs.responded_lt i (hi : s.responded i = true)
          show i < s.nextId
          omega
        recvd_fresh := fun i hi => hs.recvd_fresh i (by
          have h2 : s.nextId + 1 ≤ i := hi
          omega) }
  · rw [enqueueStep_busy nl s hp]
    have hjn : j ≠ s.nextId := by
      intro he
      apply hp
      rw [hs.pending_eq, he]
      simp
    have hk : k = j + 1 := hs.k_busy hjn
    have hpend : s.pending ++ [s.nextId] = List.range' j (s.nextId + 1 - j) := by
      rw [hs.pending_eq]
      have h1 : s.nextId + 1 - j = (s.nextId - j) + 1 := by omega
      rw [h1, List.range'_1_concat]
      have h2 : j + (s.nextId - j) = s.nextId := by omega
      rw [h2]
    by_cases hm : m < s.nextId
    · refine ⟨j, k, m, r, ?_⟩
      refine
        { j_le := Nat.le_trans hs.j_le (Nat.le_succ _)
          completed_iff := hs.completed_iff
          writes_eq := hs.writes_eq
          k_done := by
            intro h1
            have h2 : j = s.nextId + 1 := h1
            omega
          k_busy := fun _ => hk
          pending_eq := hpend
          j_le_m := hs.j_le_m
          m_le := Nat.le_trans hs.m_le (Nat.le_succ _)
          handlers_eq := by
            show s.responseHandlers ++ List.replicate (nl s.nextId) s.nextId = _
            rw [hs.handlers_eq, List.append_assoc]
            congr 1
            have h1 : s.nextId + 1 - (m + 1) = (s.nextId - (m + 1)) + 1 := by omega
            rw [h1, handlersFrom_concat]
            have h2 : m + 1 + (s.nextId - (m + 1)) = s.nextId := by omega
            rw [h2]
          r_pos := fun _ => hs.r_pos hm
          r_zero := by
            intro h1
            have h2 : m = s.nextId + 1 := h1
            omega
          recvd_m := fun _ ht => hs.recvd_m hm (ht : s.timedOut m = false)
          recvd_gt := hs.recvd_gt
          timedOut_fresh := fun i hi => hs.timedOut_fresh i (by
            have h2 : s.nextId + 1 ≤ i := hi
            omega)
          responded_lt := hs.responded_lt
          recvd_fresh := fun i hi => hs.recvd_fresh i (by
            have h2 : s.nextId + 1 ≤ i := hi
            omega) }
    · have hmn : m = s.nextId := by omega
      have hr0 : r = 0 := hs.r_zero hmn
      have hhandlers : s.responseHandlers = [] := by
        rw [hs.handlers_eq, hr0, hmn]
        have h1 : s.nextId - (s.nextId + 1) = 0 := by omega
        rw [h1]
        simp [handlersFrom]
      refine ⟨j, k, s.nextId, nl s.nextId, ?_⟩
      refine
        { j_le := Nat.le_trans hs.j_le (Nat.le_succ _)
          completed_iff := hs.completed_iff
          writes_eq := hs.writes_eq
          k_done := by
            intro h1
            have h2 : j = s.nextId + 1 := h1
            omega
          k_busy := fun _ => hk
          pending_eq := hpend
          j_le_m := hs.j_le
          m_le := Nat.le_succ s.nextId
          handlers_eq := by
            show s.responseHandlers ++ List.replicate (nl s.nextId) s.nextId = _
            rw [hhandlers]
            have h1 : s.nextId + 1 - (s.nextId + 1) = 0 := by omega
            rw [h1]
            simp [handlersFrom]
          r_pos := fun _ => ⟨hnl s.nextId, Nat.le_refl _⟩
          r_zero := by
            intro h1
            have h2 : s.nextId = s.nextId + 1 := h1
            omega
          recvd_m := by
            intro _ _
            show s.recvd s.nextId + nl s.nextId = nl s.nextId
            rw [hs.recvd_fresh s.nextId (Nat.le_refl _)]
            omega
          recvd_gt := fun i hi => hs.recvd_fresh i (by
            have h2 : s.nextId < i := hi
            omega)
          timedOut_fresh := fun i hi => hs.timedOut_fresh i (by
            have h2 : s.nextId + 1 ≤ i := hi
            omega)
          responded_lt := fun i hi => by
            have h2 := hs.responded_lt i (hi : s.responded i = true)
            show i < s.nextId
            omega
          recvd_fresh := fun i hi => hs.recvd_fresh i (by
            have h2 : s.nextId + 1 ≤ i := hi
            omega) }

theorem lineStep_inv (nl : Nat → Nat) (hnl : ∀ i, 1 ≤ nl i) (s : EbbState)
    (h : EbbInv nl s) : EbbInv nl (lineStep nl s) := by
  obtain ⟨j, k, m, r, hs⟩ := h
  have hj1 := hs.j_le
  have hm8 := hs.m_le
  have h7 := hs.j_le_m
  by_cases hh : s.responseHandlers = []
  · rw [lineStep_nil nl s hh]
    exact ⟨j, k, m, r, hs⟩
  · have hmlt : m < s.nextId := by
      by_contra hc
      have hmn : m = s.nextId := by omega
      have hr0 : r = 0 := hs.r_zero hmn
      apply hh
      rw [hs.handlers_eq, hr0, hmn]
      have h1 : s.nextId - (s.nextId + 1) = 0 := by omega
      rw [h1]
      simp [handlersFrom]
    obtain ⟨hr1, hrle⟩ := hs.r_pos hmlt
    have hrsucc : r = (r - 1) + 1 := by omega
    have hrep : List.replicate r m = m :: List.replicate (r - 1) m := by
      conv_lhs => rw [hrsucc]
      rw [List.replicate_succ]
    have hcons : s.responseHandlers =
        m :: (List.replicate (r - 1) m ++ handlersFrom nl (m + 1) (s.nextId - (m + 1))) := by
      rw [hs.handlers_eq, hrep, List.cons_append]
    have hjn : j ≠ s.nextId := by omega
    have hk : k = j + 1 := hs.k_busy hjn
    by_cases ht : s.timedOut m = true
    · -- the head handler belongs to a timed-out command and swallows the line
      rw [lineStep_cons_timedOut nl s m _ hcons ht]
      by_cases hr2 : 2 ≤ r
      · refine ⟨j, k, m, r - 1, ?_⟩
        refine
          { j_le := hs.j_le
            completed_iff := hs.completed_iff
            writes_eq := hs.writes_eq
            k_done := hs.k_done
            k_busy := hs.k_busy
            pending_eq := hs.pending_eq
            j_le_m := hs.j_le_m
            m_le := hs.m_le
            handlers_eq := rfl
            r_pos := fun _ => ⟨by omega, by omega⟩
            r_zero := by
              intro h1
              have h2 : m = s.nextId := h1
              omega
            recvd_m := by
              intro _ hf
              have hf2 : s.timedOut m = false := hf
              rw [ht] at hf2
              cases hf2
            recvd_gt := hs.recvd_gt
            timedOut_fresh := hs.timedOut_fresh
            responded_lt := hs.responded_lt
            recvd_fresh := hs.recvd_fresh }
      · have hr_eq1 : r = 1 := by omega
        have htl : List.replicate (r - 1) m ++ handlersFrom nl (m + 1) (s.nextId - (m + 1)) =
            handlersFrom nl (m + 1) (s.nextId - (m + 1)) := by
          rw [hr_eq1]
          simp
        by_cases hnm : m + 1 = s.nextId
        · refine ⟨j, k, s.nextId, 0, ?_⟩
          have htl0 : List.replicate (r - 1) m ++
              handlersFrom nl (m + 1) (s.nextId - (m + 1)) = [] := by
            rw [htl]
            have h1 : s.nextId - (m + 1) = 0 := by omega
            rw [h1]
            simp [handlersFrom]
          refine
            { j_le := hs.j_le
              completed_iff := hs.completed_iff
              writes_eq := hs.writes_eq
              k_done := hs.k_done
              k_busy := hs.k_busy
              pending_eq := hs.pending_eq
              j_le_m := by omega
              m_le := Nat.le_refl _
              handlers_eq := by
                show List.replicate (r - 1) m ++ handlersFrom nl (m + 1) (s.nextId - (m + 1)) = _
                rw [htl0]
                have h1 : s.nextId - (s.nextId + 1) = 0 := by omega
                rw [h1]
                simp [handlersFrom]
              r_pos := by
                intro h1
                have h2 : s.nextId < s.nextId := h1
                omega
              r_zero := fun _ => rfl
              recvd_m := by
                intro h1 _
                have h2 : s.nextId < s.nextId := h1
                omega
              recvd_gt := fun i hi => by
                have h2 : s.nextId < i := hi
                exact hs.recvd_fresh i (by omega)
              timedOut_fresh := hs.timedOut_fresh
              responded_lt := fun i hi => by
                have h2 := hs.responded_lt i hi
                show i < s.nextId
                omega
              recvd_fresh := hs.recvd_fresh }
        · have hmm : m + 1 < s.nextId := by omega
          refine ⟨j, k, m + 1, nl (m + 1), ?_⟩
          refine
            { j_le := hs.j_le
              completed_iff := hs.completed_iff
              writes_eq := hs.writes_eq
              k_done := hs.k_done
              k_busy := hs.k_busy
              pending_eq := hs.pending_eq
              j_le_m := by omega
              m_le := by
                show m + 1 ≤ s.nextId
                omega
              handlers_eq := by
                show List.replicate (r - 1) m ++ handlersFrom nl (m + 1) (s.nextId - (m + 1)) = _
                rw [htl]
                have h1 : s.nextId - (m + 1) = (s.nextId - (m + 2)) + 1 := by omega
                rw [h1, handlersFrom_succ]
              r_pos := fun _ => ⟨hnl (m + 1), Nat.le_refl _⟩
              r_zero := by
                intro h1
                have h2 : m + 1 = s.nextId := h1
                omega
              recvd_m := by
                intro _ _
                show s.recvd (m + 1) + nl (m + 1) = nl (m + 1)
                rw [hs.recvd_gt (m + 1) (by omega)]
                omega
              recvd_gt := fun i hi => by
                have h2 : m + 1 < i := hi
                exact hs.recvd_gt i (by omega)
              timedOut_fresh := hs.timedOut_fresh
              responded_lt := fun i hi => by
                have h2 := hs.responded_lt i hi
                show i < m + 1
                omega
              recvd_fresh := hs.recvd_fresh }
    · -- the head command is live: the line is appended to its buffer
      have htf : s.timedOut m = false := by
        cases hq : s.timedOut m with
        | false => rfl
        | true => exact absurd hq ht
      have hrm : s.recvd m + r = nl m := hs.recvd_m hmlt htf
      by_cases hfull : s.recvd m + 1 = nl m
      · -- the line completes the response of m
        have hr_eq1 : r = 1 := by omega
        have htl : List.replicate (r - 1) m ++ handlersFrom nl (m + 1) (s.nextId - (m + 1)) =
            handlersFrom nl (m + 1) (s.nextId - (m + 1)) := by
          rw [hr_eq1]
          simp
        by_cases hmj : m = j
        · -- m is the written queue head: its continuation runs
          subst hmj
          have hmem : m ∈ s.writes := by
            rw [hs.writes_eq]
            exact List.mem_range.mpr (by omega)
          rw [lineStep_cons_full_written nl s m _ hcons htf hfull hmem]
          by_cases hnm : m + 1 = s.nextId
          · -- the queue is now empty
            have htail0 : s.pending.tail = [] := by
              rw [hs.pending_eq]
              have h1 : s.nextId - m = 1 := by omega
              rw [h1, List.range'_one]
              rfl
            rw [runCont_last]
            rotate_left
            exact htail0
            refine ⟨m + 1, k, s.nextId, 0, ?_⟩
            refine
              { j_le := by
                  show m + 1 ≤ s.nextId
                  omega
                completed_iff := by
                  intro i
                  show updFn s.completed m true i = true ↔ i < m + 1
                  by_cases him : i = m
                  · subst him
                    simp [updFn]
                  · simp only [updFn, if_neg him]
                    rw [hs.completed_iff i]
                    omega
                writes_eq := hs.writes_eq
                k_done := fun _ => by omega
                k_busy := by
                  intro h1
                  have h2 : m + 1 ≠ s.nextId := h1
                  omega
                pending_eq := by
                  show ([] : List Nat) = List.range' (m + 1) (s.nextId - (m + 1))
                  have h1 : s.nextId - (m + 1) = 0 := by omega
                  rw [h1]
                  simp
                j_le_m := by omega
                m_le := Nat.le_refl _
                handlers_eq := by
                  show List.replicate (r - 1) m ++ handlersFrom nl (m + 1) (s.nextId - (m + 1)) = _
                  rw [htl]
                  have h1 : s.nextId - (m + 1) = 0 := by omega
                  have h2 : s.nextId - (s.nextId + 1) = 0 := by omega
                  rw [h1, h2]
                  simp [handlersFrom]
                r_pos := by
                  intro h1
                  have h2 : s.nextId < s.nextId := h1
                  omega
                r_zero := fun _ => rfl
                recvd_m := by
                  intro h1 _
                  have h2 : s.nextId < s.nextId := h1
                  omega
                recvd_gt := fun i hi => by
                  have h2 : s.nextId < i := hi
                  show updFn s.recvd m (s.recvd m + 1) i = 0
                  have him : ¬(i = m) := by omega
                  simp only [updFn, if_neg him]
                  exact hs.recvd_fresh i (by omega)
                timedOut_fresh := hs.timedOut_fresh
                responded_lt := fun i hi => by
                  show i < s.nextId
                  have hi2 : updFn s.responded m true i = true := hi
                  by_cases him : i = m
                  · omega
                  · simp only [updFn, if_neg him] at hi2
                    have := hs.responded_lt i hi2
                    omega
                recvd_fresh := fun i hi => by
                  have h2 : s.nextId ≤ i := hi
                  show updFn s.recvd m (s.recvd m + 1) i = 0
                  have him : ¬(i = m) := by omega
                  simp only [updFn, if_neg him]
                  exact hs.recvd_fresh i (by omega) }
          · -- the next pending command is written
            have hmm : m + 1 < s.nextId := by omega
            have hflen : s.pending.length = (s.nextId - m - 1) + 1 := by
              rw [hs.pending_eq, List.length_range']
              omega
            have htail : s.pending.tail =
                (m + 1) :: List.range' (m + 2) (s.nextId - (m + 2)) := by
              rw [hs.pending_eq]
              have h1 : s.nextId - m = (s.nextId - (m + 1)) + 1 := by omega
              rw [h1, List.range'_succ]
              simp only [List.tail_cons]
              have h2 : s.nextId - (m + 1) = (s.nextId - (m + 2)) + 1 := by omega
              rw [h2, List.range'_succ]
            have hrespd : s.responded (m + 1) = false := by
              cases hq : s.responded (m + 1) with
              | false => rfl
              | true =>
                have := hs.responded_lt _ hq
                omega
            have hrespd2 : updFn s.responded m true (m + 1) = false := by
              have him : ¬(m + 1 = m) := by omega
              simp only [updFn, if_neg him]
              exact hrespd
            rw [hflen,
              runCont_step (s.nextId - m - 1) m (m + 1) (List.range' (m + 2) (s.nextId - (m + 2)))]
            rotate_left
            exact htail
            exact hrespd2
            refine ⟨m + 1, (m + 1) + 1, m + 1, nl (m + 1), ?_⟩
            refine
              { j_le := by
                  show m + 1 ≤ s.nextId
                  omega
                completed_iff := by
                  intro i
                  show updFn s.completed m true i = true ↔ i < m + 1
                  by_cases him : i = m
                  · subst him
                    simp [updFn]
                  · simp only [updFn, if_neg him]
                    rw [hs.completed_iff i]
                    omega
                writes_eq := by
                  show s.writes ++ [m + 1] = _
                  rw [hs.writes_eq, hk, ← List.range_succ]
                k_done := by
                  intro h1
                  have h2 : m + 1 = s.nextId := h1
                  omega
                k_busy := fun _ => rfl
                pending_eq := by
                  show (m + 1) :: List.range' (m + 2) (s.nextId - (m + 2)) =
                    List.range' (m + 1) (s.nextId - (m + 1))
                  have h1 : s.nextId - (m + 1) = (s.nextId - (m + 2)) + 1 := by omega
                  rw [h1, List.range'_succ]
                j_le_m := Nat.le_refl _
                m_le := by
                  show m + 1 ≤ s.nextId
                  omega
                handlers_eq := by
                  show List.replicate (r - 1) m ++ handlersFrom nl (m + 1) (s.nextId - (m + 1)) = _
                  rw [htl]
                  have h1 : s.nextId - (m + 1) = (s.nextId - (m + 2)) + 1 := by omega
                  rw [h1, handlersFrom_succ]
                r_pos := fun _ => ⟨hnl (m + 1), Nat.le_refl _⟩
                r_zero := by
                  intro h1
                  have h2 : m + 1 = s.nextId := h1
                  omega
                recvd_m := by
                  intro _ _
                  show updFn s.recvd m (s.recvd m + 1) (m + 1) + nl (m + 1) = nl (m + 1)
                  have him : ¬(m + 1 = m) := by omega
                  simp only [updFn, if_neg him]
                  rw [hs.recvd_gt (m + 1) (by omega)]
                  omega
                recvd_gt := fun i hi => by
                  have h2 : m + 1 < i := hi
                  show updFn s.recvd m (s.recvd m + 1) i = 0
                  have him : ¬(i = m) := by omega
                  simp only [updFn, if_neg him]
                  exact hs.recvd_gt i (by omega)
                timedOut_fresh := hs.timedOut_fresh
                responded_lt := fun i hi => by
                  show i < m + 1
                  have hi2 : updFn s.responded m true i = true := hi
                  by_cases him : i = m
                  · omega
                  · simp only [updFn, if_neg him] at hi2
                    have := hs.responded_lt i hi2
                    omega
                recvd_fresh := fun i hi => by
                  have h2 : s.nextId ≤ i := hi
                  show updFn s.recvd m (s.recvd m + 1) i = 0
                  have him : ¬(i = m) := by omega
                  simp only [updFn, if_neg him]
                  exact hs.recvd_fresh i (by omega) }
        · -- m was never written (an earlier command timed out): no continuation runs
          have hnmem : m ∉ s.writes := by
            rw [hs.writes_eq]
            intro hmm
            have := List.mem_range.mp hmm
            omega
          rw [lineStep_cons_full_unwritten nl s m _ hcons htf hfull hnmem]
          by_cases hnm : m + 1 = s.nextId
          · refine ⟨j, k, s.nextId, 0, ?_⟩
            refine
              { j_le := hs.j_le
                completed_iff := hs.completed_iff
                writes_eq := hs.writes_eq
                k_done := hs.k_done
                k_busy := hs.k_busy
                pending_eq := hs.pending_eq
                j_le_m := by omega
                m_le := Nat.le_refl _
                handlers_eq := by
                  show List.replicate (r - 1) m ++ handlersFrom nl (m + 1) (s.nextId - (m + 1)) = _
                  rw [htl]
                  have h1 : s.nextId - (m + 1) = 0 := by omega
                  have h2 : s.nextId - (s.nextId + 1) = 0 := by omega
                  rw [h1, h2]
                  simp [handlersFrom]
                r_pos := by
                  intro h1
                  have h2 : s.nextId < s.nextId := h1
                  omega
                r_zero := fun _ => rfl
                recvd_m := by
                  intro h1 _
                  have h2 : s.nextId < s.nextId := h1
                  omega
                recvd_gt := fun i hi => by
                  have h2 : s.nextId < i := hi
                  show updFn s.recvd m (s.recvd m + 1) i = 0
                  have him : ¬(i = m) := by omega
                  simp only [updFn, if_neg him]
                  exact hs.recvd_fresh i (by omega)
                timedOut_fresh := hs.timedOut_fresh
                responded_lt := fun i hi => by
                  show i < s.nextId
                  have hi2 : updFn s.responded m true i = true := hi
                  by_cases him : i = m
                  · omega
                  · simp only [updFn, if_neg him] at hi2
                    have := hs.responded_lt i hi2
                    omega
                recvd_fresh := fun i hi => by
                  have h2 : s.nextId ≤ i := hi
                  show updFn s.recvd m (s.recvd m + 1) i = 0
                  have him : ¬(i = m) := by omega
                  simp only [updFn, if_neg him]
                  exact hs.recvd_fresh i (by omega) }
          · have hmm : m + 1 < s.nextId := by omega
            refine ⟨j, k, m + 1, nl (m + 1), ?_⟩
            refine
              { j_le := hs.j_le
                completed_iff := hs.completed_iff
                writes_eq := hs.writes_eq
                k_done := hs.k_done
                k_busy := hs.k_busy
                pending_eq := hs.pending_eq
                j_le_m := by omega
                m_le := by
                  show m + 1 ≤ s.nextId
                  omega
                handlers_eq := by
                  show List.replicate (r - 1) m ++ handlersFrom nl (m + 1) (s.nextId - (m + 1)) = _
                  rw [htl]
                  have h1 : s.nextId - (m + 1) = (s.nextId - (m + 2)) + 1 := by omega
                  rw [h1, handlersFrom_succ]
                r_pos := fun _ => ⟨hnl (m + 1), Nat.le_refl _⟩
                r_zero := by
                  intro h1
                  have h2 : m + 1 = s.nextId := h1
                  omega
                recvd_m := by
                  intro _ _
                  show updFn s.recvd m (s.recvd m + 1) (m + 1) + nl (m + 1) = nl (m + 1)
                  have him : ¬(m + 1 = m) := by omega
                  simp only [updFn, if_neg him]
                  rw [hs.recvd_gt (m + 1) (by omega)]
                  omega
                recvd_gt := fun i hi => by
                  have h2 : m + 1 < i := hi
                  show updFn s.recvd m (s.recvd m + 1) i = 0
                  have him : ¬(i = m) := by omega
                  simp only [updFn, if_neg him]
                  exact hs.recvd_gt i (by omega)
                timedOut_fresh := hs.timedOut_fresh
                responded_lt := fun i hi => by
                  show i < m + 1
                  have hi2 : updFn s.responded m true i = true := hi
                  by_cases him : i = m
                  · omega
                  · simp only [updFn, if_neg him] at hi2
                    have := hs.responded_lt i hi2
                    omega
                recvd_fresh := fun i hi => by
                  have h2 : s.nextId ≤ i := hi
                  show updFn s.recvd m (s.recvd m + 1) i = 0
                  have him : ¬(i = m) := by omega
                  simp only [updFn, if_neg him]
                  exact hs.recvd_fresh i (by omega) }
      · -- the line is buffered but the response of m is not yet complete
        rw [lineStep_cons_buffered nl s m _ hcons htf hfull]
        have hr2 : 2 ≤ r := by omega
        refine ⟨j, k, m, r - 1, ?_⟩
        refine
          { j_le := hs.j_le
            completed_iff := hs.completed_iff
            writes_eq := hs.writes_eq
            k_done := hs.k_done
            k_busy := hs.k_busy
            pending_eq := hs.pending_eq
            j_le_m := hs.j_le_m
            m_le := hs.m_le
            handlers_eq := rfl
            r_pos := fun _ => ⟨by omega, by omega⟩
            r_zero := by
              intro h1
              have h2 : m = s.nextId := h1
              omega
            recvd_m := by
              intro _ _
              show updFn s.recvd m (s.recvd m + 1) m + (r - 1) = nl m
              have hupd : updFn s.recvd m (s.recvd m + 1) m = s.recvd m + 1 := by
                simp [updFn]
              rw [hupd]
              omega
            recvd_gt := fun i hi => by
              have h2 : m < i := hi
              show updFn s.recvd m (s.recvd m + 1) i = 0
              have him : ¬(i = m) := by omega
              simp only [updFn, if_neg him]
              exact hs.recvd_gt i h2
            timedOut_fresh := hs.timedOut_fresh
            responded_lt := hs.responded_lt
            recvd_fresh := fun i hi => by
              have h2 : s.nextId ≤ i := hi
              show updFn s.recvd m (s.recvd m + 1) i = 0
              have him : ¬(i = m) := by omega
              simp only [updFn, if_neg him]
              exact hs.recvd_fresh i (by omega) }

theorem ebbStep_inv (nl : Nat → Nat) (hnl : ∀ i, 1 ≤ nl i) (s : EbbState) (e : EbbEvent)
    (h : EbbInv nl s) : EbbInv nl (ebbStep nl s e) := by
  cases e with
  | enqueue => exact enqueueStep_inv nl hnl s h
  | line => exact lineStep_inv nl hnl s h
  | timeout c => exact timeoutStep_inv nl s c h

theorem ebbRun_inv (nl : Nat → Nat) (hnl : ∀ i, 1 ≤ nl i) (events : List EbbEvent) :
    EbbInv nl (ebbRun nl events) := by
  have hgen : ∀ (evs : List EbbEvent) (s : EbbState), EbbInv nl s →
      EbbInv nl (evs.foldl (ebbStep nl) s) := by
    intro evs
    induction evs with
    | nil =>
      intro s hs
      exact hs
    | cons e es ih =>
      intro s hs
      rw [List.foldl_cons]
      exact ih (ebbStep nl s e) (ebbStep_inv nl hnl s e hs)
  exact hgen events initState ⟨0, 0, 0, 0, initState_shape nl⟩

/-! ## Claim theorems -/

/-- Claim C3: for every sequence of events (calls of command, line arrivals,
timer firings, in any order) over commands that each declare at least one
response line, the transport write log is always an initial segment of the
enqueue order (so writes happen in order A, B, C with no skips), a command
is written only after its predecessor has fully completed (in particular
B is never written before the response of A completes; after a timeout of
A, B is never written at all), and at most one written command is
uncompleted at any time (at most one command in flight). -/
theorem command_queue_serializes (nl : Nat → Nat) (hnl : ∀ i, 1 ≤ nl i)
    (events : List EbbEvent) :
    (∃ w, (ebbRun nl events).writes = List.range w) ∧
    (∀ c, c + 1 ∈ (ebbRun nl events).writes → (ebbRun nl events).completed c = true) ∧
    (∀ c₁ c₂, c₁ ∈ (ebbRun nl events).writes → (ebbRun nl events).completed c₁ = false →
      c₂ ∈ (ebbRun nl events).writes → (ebbRun nl events).completed c₂ = false →
      c₁ = c₂) := by
  obtain ⟨j, k, m, r, hs⟩ := ebbRun_inv nl hnl events
  have hk : k ≤ j + 1 := by
    by_cases hj : j = (ebbRun nl events).nextId
    · have := hs.k_done hj
      omega
    · have := hs.k_busy hj
      omega
  refine ⟨⟨k, hs.writes_eq⟩, ?_, ?_⟩
  · intro c hc
    rw [hs.writes_eq] at hc
    have hck := List.mem_range.mp hc
    rw [hs.completed_iff c]
    omega
  · intro c₁ c₂ h1 h1c h2 h2c
    rw [hs.writes_eq] at h1 h2
    have e1 := List.mem_range.mp h1
    have e2 := List.mem_range.mp h2
    have f1 : ¬(c₁ < j) := fun hlt => by
      have := (hs.completed_iff c₁).mpr hlt
      rw [h1c] at this
      cases this
    have f2 : ¬(c₂ < j) := fun hlt => by
      have := (hs.completed_iff c₂).mpr hlt
      rw [h2c] at this
      cases this
    omega

/-- Witness for C3 at a concrete trace: two one-line commands and two line
arrivals; command 1 was written, hence command 0 completed. -/
theorem command_queue_serializes_witness :
    (ebbRun (fun _ => 1)
      [EbbEvent.enqueue, EbbEvent.enqueue, EbbEvent.line, EbbEvent.line]).completed 0 =
      true :=
  (command_queue_serializes (fun _ => 1) (fun _ => Nat.le_refl 1)
    [EbbEvent.enqueue, EbbEvent.enqueue, EbbEvent.line, EbbEvent.line]).2.1 0 (by decide)

/-- Claim C1, evaluated at the failing input (the defect also noted in the
design notes of the specification): two single-line commands are enqueued
and the timeout of command 0 fires before any line arrives. Even after
lines arrive for both commands, the write log still holds only command 0,
both entries are still in this.pending, and command 1 is never executed:
the queue does not advance past a timed-out command, because the dequeue
and dispatch of the next entry happen only in the fulfillment continuation.
Command 1 even has its responsePromise fulfilled by a stale line, yet is
never written nor completed. -/
theorem timeout_stalls_queue :
    (ebbRun (fun _ => 1)
      [EbbEvent.enqueue, EbbEvent.enqueue, EbbEvent.timeout 0, EbbEvent.line,
        EbbEvent.line]).writes = [0] ∧
    (ebbRun (fun _ => 1)
      [EbbEvent.enqueue, EbbEvent.enqueue, EbbEvent.timeout 0, EbbEvent.line,
        EbbEvent.line]).pending = [0, 1] ∧
    (ebbRun (fun _ => 1)
      [EbbEvent.enqueue, EbbEvent.enqueue, EbbEvent.timeout 0, EbbEvent.line,
        EbbEvent.line]).timedOut 0 = true ∧
    (ebbRun (fun _ => 1)
      [EbbEvent.enqueue, EbbEvent.enqueue, EbbEvent.timeout 0, EbbEvent.line,
        EbbEvent.line]).completed 0 = false ∧
    (ebbRun (fun _ => 1)
      [EbbEvent.enqueue, EbbEvent.enqueue, EbbEvent.timeout 0, EbbEvent.line,
        EbbEvent.line]).completed 1 = false ∧
    (ebbRun (fun _ => 1)
      [EbbEvent.enqueue, EbbEvent.enqueue, EbbEvent.timeout 0, EbbEvent.line,
        EbbEvent.line]).responded 1 = true :=
  ⟨rfl, rfl, rfl, rfl, rfl, rfl⟩

/-- Claim C2 counterexample: the claim asserts that queryGeneral fed a
non-hex line and analogValueGet fed a line not starting with the A tag
fail with a Protocol error; in the code both decoders perform no
validation at all. Feeding ZZ to queryGeneral returns a decoded status
object (parseInt yields NaN, every bit test sees 0, fifoEmpty is the
negation), and feeding a tagless line to analogValueGet returns the empty
mapping; neither operation fails. -/
theorem queryGeneral_no_protocol_error :
    queryGeneralDecode "ZZ" =
      Except.ok
        { pinRB5 := false, pinRB2 := false, buttonPrg := false, penDown := false,
          commandExecuting := false, motor1Moving := false, motor2Moving := false,
          fifoEmpty := true } ∧
    analogValueGetDecode "garbage" = Except.ok [] :=
  ⟨rfl, rfl⟩

/-- Claim C2 amended: the operations that do validate their responses fail
with an error naming the offending response text (a non-OK line where an
OK acknowledgment is required, and a line without the QM tag in
queryMotors), while queryGeneral and analogValueGet validate nothing and
succeed on every input line. -/
theorem response_validation_behavior :
    (∀ response : String, response ≠ "OK" →
      okAcknowledgeCheck response =
        Except.error ("Received unexpected response: " ++ response)) ∧
    (∀ response : String, jsStartsWith response "QM," = false →
      queryMotorsDecode response = Except.error ("Unexpected response: " ++ response)) ∧
    (∀ response : String, (queryGeneralDecode response).isOk = true) ∧
    (∀ response : String, (analogValueGetDecode response).isOk = true) := by
  refine ⟨?_, ?_, ?_, ?_⟩
  · intro resp hr
    unfold okAcknowledgeCheck
    rw [if_neg hr]
  · intro resp hr
    unfold queryMotorsDecode
    rw [hr]
    rfl
  · intro resp
    rfl
  · intro resp
    rfl

/-- Witness for the amended C2 at concrete malformed lines. -/
theorem response_validation_behavior_witness :
    okAcknowledgeCheck "nope" = Except.error "Received unexpected response: nope" ∧
    queryMotorsDecode "XX,1,1,1,1" = Except.error "Unexpected response: XX,1,1,1,1" :=
  ⟨(response_validation_behavior).1 "nope" (by decide),
    (response_validation_behavior).2.1 "XX,1,1,1,1" (by decide)⟩

/-- Claim C4 counterexample: the claim quantifies over every operation, but
pulseConfigure performs no parameter validation at all: a duration far
outside its documented 0-65535 domain is encoded and written to the
transport instead of failing with a Validation error. -/
theorem pulseConfigure_skips_validation :
    (65535 : Int) < 70000 ∧
    opWrites (pulseConfigureEncode 70000 0 0 0 0 0 0 0) =
      ["PC,70000,0,0,0,0,0,0,0\r"] :=
  ⟨by decide, rfl⟩

/-- Claim C4 amended: the cited operations do validate before any transport
interaction: memoryWrite with an address outside 0-4095 or a value outside
0-255, and setPinDirection with a port letter outside A-E or a pin index
outside 0-7, fail synchronously with the validation error and write
nothing; pulseConfigure (which has no validation) is an exception to the
claimed universal rule. -/
theorem validation_before_transport :
    (∀ address value : Int,
      address < 0 ∨ 4095 < address ∨ value < 0 ∨ 255 < value →
      (∃ msg, memoryWriteEncode address value = Except.error msg) ∧
      opWrites (memoryWriteEncode address value) = []) ∧
    (∀ (portLetter : String) (pinIndex : Int) (isOutput : Bool),
      portLetter ∉ (["A", "B", "C", "D", "E"] : List String) ∨ pinIndex < 0 ∨ 7 < pinIndex →
      (∃ msg, setPinDirectionEncode portLetter pinIndex isOutput = Except.error msg) ∧
      opWrites (setPinDirectionEncode portLetter pinIndex isOutput) = []) := by
  constructor
  · intro a v hbad
    by_cases ha : a < 0 ∨ a > 4095
    · have he : memoryWriteEncode a v = Except.error "Address must be between 0 and 4095." := by
        unfold memoryWriteEncode
        rw [if_pos ha]
      exact ⟨⟨_, he⟩, by rw [he]; rfl⟩
    · have hv : v < 0 ∨ v > 255 := by
        rcases hbad with hcase | hcase | hcase | hcase
        · exact absurd (Or.inl hcase) ha
        · exact absurd (Or.inr hcase) ha
        · exact Or.inl hcase
        · exact Or.inr hcase
      have he : memoryWriteEncode a v =
          Except.error "Byte value must be between 0 and 255." := by
        unfold memoryWriteEncode assertByte
        rw [if_neg ha, if_pos hv]
        rfl
      exact ⟨⟨_, he⟩, by rw [he]; rfl⟩
  · intro p pin out hbad
    by_cases hp : p ∈ (["A", "B", "C", "D", "E"] : List String)
    · have hpin : pin < 0 ∨ pin > 7 := by
        rcases hbad with hcase | hcase | hcase
        · exact absurd hp hcase
        · exact Or.inl hcase
        · exact Or.inr hcase
      have he : setPinDirectionEncode p pin out =
          Except.error "Pin index must be between 0 and 7." := by
        unfold setPinDirectionEncode assertValidPortLetter
        rw [if_pos hp]
        show (if pin < 0 ∨ pin > 7 then _ else _) = _
        rw [if_pos hpin]
      exact ⟨⟨_, he⟩, by rw [he]; rfl⟩
    · have he : setPinDirectionEncode p pin out =
          Except.error "Port letter must be A, B, C, D, or E." := by
        unfold setPinDirectionEncode assertValidPortLetter
        rw [if_neg hp]
        rfl
      exact ⟨⟨_, he⟩, by rw [he]; rfl⟩

/-- Witness for the amended C4 at concrete out-of-domain inputs. -/
theorem validation_before_transport_witness :
    opWrites (memoryWriteEncode 4096 0) = [] ∧
    opWrites (setPinDirectionEncode "Z" 0 true) = [] :=
  ⟨((validation_before_transport).1 4096 0 (by decide)).2,
    ((validation_before_transport).2 "Z" 0 true (by decide)).2⟩

/-- Claim C5: within the documented domains each encoder writes exactly the
specified carriage-return-terminated ASCII string; in particular
enableMotors(16,16) writes EM,16,16 and stepperMoveMixedAxis(1337,100,200)
writes XM,1337,100,200, each followed by the carriage return appended by
this.command. -/
theorem encoder_exact_strings :
    (∀ m1Mode m2Mode : Int, opWrites (enableMotorsEncode m1Mode m2Mode) =
      ["EM," ++ toString m1Mode ++ "," ++ toString m2Mode ++ "\r"]) ∧
    (∀ d a b : Int, 1 ≤ d → d < 2 ^ 24 → -(2 ^ 24) < a → a < 2 ^ 24 → -(2 ^ 24) ≤ b →
      b < 2 ^ 24 →
      opWrites (stepperMoveMixedAxisEncode d a b) =
        ["XM," ++ toString d ++ "," ++ toString a ++ "," ++ toString b ++ "\r"]) ∧
    opWrites (enableMotorsEncode 16 16) = ["EM,16,16\r"] ∧
    opWrites (stepperMoveMixedAxisEncode 1337 100 200) = ["XM,1337,100,200\r"] := by
  refine ⟨fun m1Mode m2Mode => rfl, ?_, rfl, rfl⟩
  intro d a b h1 h2 h3 h4 h5 h6
  unfold stepperMoveMixedAxisEncode
  rw [if_neg (by rintro (hc | hc) <;> omega : ¬(d < 1 ∨ d ≥ 2 ^ 24)),
    if_neg (by rintro (hc | hc) <;> omega : ¬(a ≤ -(2 ^ 24) ∨ a ≥ 2 ^ 24)),
    if_neg (by rintro (hc | hc) <;> omega : ¬(b < -(2 ^ 24) ∨ b ≥ 2 ^ 24))]
  rfl

/-- Witness for C5 at the concrete in-domain inputs of the claim. -/
theorem encoder_exact_strings_witness :
    opWrites (stepperMoveMixedAxisEncode 1337 100 200) = ["XM,1337,100,200\r"] :=
  (encoder_exact_strings).2.1 1337 100 200 (by decide) (by decide) (by decide) (by decide)
    (by decide) (by decide)

/-- Claim C6: queryGeneral decodes the hex status byte by bit position with
fifoEmpty the inverse of bit 0: the line 3E yields exactly the claimed
flags, and the line 3F (bit 0 set) yields fifoEmpty false, exhibiting the
inversion. -/
theorem queryGeneral_decodes_3E :
    queryGeneralDecode "3E" =
      Except.ok
        { pinRB5 := false, pinRB2 := false, buttonPrg := true, penDown := true,
          commandExecuting := true, motor1Moving := true, motor2Moving := true,
          fifoEmpty := true } ∧
    queryGeneralDecode "3F" =
      Except.ok
        { pinRB5 := false, pinRB2 := false, buttonPrg := true, penDown := true,
          commandExecuting := true, motor1Moving := true, motor2Moving := true,
          fifoEmpty := false } :=
  ⟨rfl, rfl⟩

/-- Claim C7: analogValueGet splits the response on commas, drops the A tag,
splits each token on the colon and parses both parts as decimal integers;
the documented example line yields exactly the mapping 0 to 713, 2 to 241,
5 to 89, 9 to 1004, and only the channels present in the line appear. -/
theorem analogValueGet_decodes_example :
    analogValueGetDecode "A,00:0713,02:0241,05:0089,09:1004" =
      Except.ok
        [(some 0, some 713), (some 2, some 241), (some 5, some 89), (some 9, some 1004)] :=
  rfl

/-- Claim C8: boolean pen state round-trips through the PEN_DOWN=0/PEN_UP=1
wire encoding: setPenState encodes the field as 0 for pen down and 1 for
pen up, and queryPen decodes a first line of 0 to true and 1 to false, so
decoding the encoded value returns the original boolean. -/
theorem pen_state_roundtrip (b : Bool) :
    setPenStateEncode b none none = Except.ok ⟨"SP," ++ toString (penStateField b), 1⟩ ∧
    queryPenDecode (toString (penStateField b) ++ "\r\nOK") = Except.ok b := by
  cases b <;> exact ⟨rfl, rfl⟩

/-- Claim C9: for every valid port letter and pin index, setPinDirection
sends the direction field as the inverse of isOutput (the TRIS bit, 0 for
output, 1 for input); setPinDirection with port A, pin 2, output writes
PD,A,2,0 followed by the carriage return. -/
theorem setPinDirection_inverts_isOutput :
    (∀ (portLetter : String) (pinIndex : Int) (isOutput : Bool),
      portLetter ∈ (["A", "B", "C", "D", "E"] : List String) →
      0 ≤ pinIndex → pinIndex ≤ 7 →
      setPinDirectionEncode portLetter pinIndex isOutput =
        Except.ok ⟨"PD," ++ portLetter ++ "," ++ toString pinIndex ++ ","
          ++ (if isOutput then "0" else "1"), 1⟩) ∧
    opWrites (setPinDirectionEncode "A" 2 true) = ["PD,A,2,0\r"] := by
  refine ⟨?_, rfl⟩
  intro p pin out hp h0 h7
  unfold setPinDirectionEncode assertValidPortLetter
  rw [if_pos hp]
  show (if pin < 0 ∨ pin > 7 then _ else _) = _
  rw [if_neg (by rintro (hc | hc) <;> omega : ¬(pin < 0 ∨ pin > 7))]
  cases out <;> rfl

/-- Witness for C9 at a concrete valid input with isOutput false. -/
theorem setPinDirection_inverts_isOutput_witness :
    setPinDirectionEncode "B" 5 false = Except.ok ⟨"PD,B,5,1", 1⟩ :=
  (setPinDirection_inverts_isOutput).1 "B" 5 false (by decide) (by decide) (by decide)

/-- Claim C10: togglePen with a duration of exactly 0 does not raise a
validation error: the truthiness guard skips the range check, the bare
command TP is sent with no duration field, and the response is then
required to equal OK. -/
theorem togglePen_zero_duration :
    togglePenEncode (some 0) = Except.ok ⟨"TP", 1⟩ ∧
    opWrites (togglePenEncode (some 0)) = ["TP\r"] ∧
    togglePenCheck (some 0) "OK" = Except.ok () ∧
    togglePenCheck (some 0) "nope" = Except.error "Unexpected response: nope" :=
  ⟨rfl, rfl, rfl, rfl⟩

end Ebb
